import Mathlib

/-!
# Verification of the demo-go user-management core

A shallow embedding, in Lean 4, of the data-access, caching and
token-authentication core of the `demo-go` repository:

* the domain model (`internal/domain`): `User`, `UserResponse`,
  `TokenClaims`, the domain errors;
* the in-memory repository (`internal/repository`,
  `memoryUserRepository`): Go maps become association lists with Go map
  semantics (`mlookup` / `minsert` / `mremove`), `time.Time` becomes `Nat`,
  and each operation that reads the clock takes the current time as an
  explicit argument;
* the business service (`internal/service`, `userService`): bcrypt is
  abstracted as a pair of functions `hashPassword` / `verifyPassword`
  supplied in an `AuthEnv`;
* the JWT token service (`jwtTokenService`): the HMAC primitive is
  abstracted as a parameter `mac`; a token is its decoded structure
  (signing method, payload, signature bytes) rather than a base64 string;
* the cache-aside decorator (`cachedUserService`) over an explicit cache
  state, with per-call fault flags for the cache client calls
  (a failed cache call leaves the cache unchanged and reports an error,
  which is one realizable behaviour of the Redis client);
* the JWT middleware (`internal/middleware`, `JWTMiddleware`).

Sequential executions only: each theorem is about one uninterleaved call
sequence, which is what the lock in `memoryUserRepository` guarantees.
-/

namespace DemoGo

/-! ## Go string primitives

The Go standard-library string helpers the embedded code uses, defined
structurally over the character list of a `String` (Lean's own
`String.trim`/`String.toLower` are well-founded recursions that the
kernel cannot evaluate; these are plain recursions with the same
meaning on the ASCII data handled here). -/

/-- `strings.TrimSpace`. -/
def goTrim (s : String) : String :=
  ⟨(((s.data.dropWhile Char.isWhitespace).reverse).dropWhile Char.isWhitespace).reverse⟩

/-- `strings.ToLower`. -/
def goToLower (s : String) : String := ⟨s.data.map Char.toLower⟩

/-- `strings.Contains` with a one-character needle. -/
def goContainsChar (s : String) (c : Char) : Bool := s.data.contains c

/-- `strings.HasPrefix`. -/
def goHasPrefix (s pre : String) : Bool := pre.data.isPrefixOf s.data

/-- Go slicing `s[n:]` (the ASCII prefixes sliced here have one byte per
character). -/
def goDrop (s : String) (n : Nat) : String := ⟨s.data.drop n⟩

theorem goToLower_length (s : String) : (goToLower s).length = s.length := by
  show (s.data.map Char.toLower).length = s.data.length
  exact List.length_map _ _

theorem goToLower_eq_empty {s : String} (h : goToLower s = "") : s = "" := by
  have hd : (goToLower s).data = [] := by rw [h]
  have hs : s.data = [] := List.map_eq_nil_iff.mp hd
  cases s
  simp_all

/-! ## Go map primitives

Association lists with Go map semantics: `mlookup` finds the first
binding, `minsert` replaces the first binding or appends, `mremove`
deletes the bindings of a key. On lists whose keys are distinct these are
exactly Go's `m[k]`, `m[k] = v` and `delete(m, k)`. -/

def mlookup {α : Type} : List (String × α) → String → Option α
  | [], _ => none
  | (k, v) :: rest, key => if k = key then some v else mlookup rest key

def minsert {α : Type} : List (String × α) → String → α → List (String × α)
  | [], key, val => [(key, val)]
  | (k, v) :: rest, key, val =>
      if k = key then (key, val) :: rest else (k, v) :: minsert rest key val

def mremove {α : Type} : List (String × α) → String → List (String × α)
  | [], _ => []
  | (k, v) :: rest, key =>
      if k = key then mremove rest key else (k, v) :: mremove rest key

theorem mlookup_minsert_self {α : Type} (m : List (String × α)) (k : String) (v : α) :
    mlookup (minsert m k v) k = some v := by
  induction m with
  | nil => simp [minsert, mlookup]
  | cons hd tl ih =>
      obtain ⟨k', v'⟩ := hd
      by_cases h : k' = k
      · simp [minsert, h, mlookup]
      · simp [minsert, h, mlookup, ih]

theorem mlookup_minsert_ne {α : Type} (m : List (String × α)) (k k' : String) (v : α)
    (h : k' ≠ k) : mlookup (minsert m k v) k' = mlookup m k' := by
  induction m with
  | nil => simp [minsert, mlookup, Ne.symm h]
  | cons hd tl ih =>
      obtain ⟨k₀, v₀⟩ := hd
      by_cases h₀ : k₀ = k
      · subst h₀
        simp [minsert, mlookup, Ne.symm h]
      · by_cases h₁ : k₀ = k'
        · simp [minsert, h₀, mlookup, h₁, h]
        · simp [minsert, h₀, mlookup, h₁, ih]

theorem mlookup_mremove_self {α : Type} (m : List (String × α)) (k : String) :
    mlookup (mremove m k) k = none := by
  induction m with
  | nil => simp [mremove, mlookup]
  | cons hd tl ih =>
      obtain ⟨k₀, v₀⟩ := hd
      by_cases h₀ : k₀ = k
      · simp [mremove, h₀, ih]
      · simp [mremove, h₀, mlookup, ih]

theorem mlookup_mremove_ne {α : Type} (m : List (String × α)) (k k' : String)
    (h : k' ≠ k) : mlookup (mremove m k) k' = mlookup m k' := by
  induction m with
  | nil => simp [mremove]
  | cons hd tl ih =>
      obtain ⟨k₀, v₀⟩ := hd
      by_cases h₀ : k₀ = k
      · subst h₀
        simp [mremove, mlookup, Ne.symm h, ih]
      · simp [mremove, h₀, mlookup, ih]

/-! ## Domain model (`internal/domain`, `part_005`)

`time.Time` is modelled as `Nat` (`Before` becomes `<`). -/

/-- `domain.User` (`part_005`). -/
structure User where
  id : String
  name : String
  email : String
  password : String
  role : String
  createdAt : Nat
  updatedAt : Nat
deriving DecidableEq

/-- `domain.UserResponse`: the external projection, without the password. -/
structure UserResponse where
  id : String
  name : String
  email : String
  role : String
  createdAt : Nat
  updatedAt : Nat
deriving DecidableEq

/-- `User.ToResponse` (`part_005`). -/
def User.toResponse (u : User) : UserResponse :=
  { id := u.id, name := u.name, email := u.email, role := u.role,
    createdAt := u.createdAt, updatedAt := u.updatedAt }

/-- `domain.TokenClaims` (`part_005`). -/
structure TokenClaims where
  userID : String
  email : String
  role : String
  exp : Int
  iat : Int
deriving DecidableEq

/-- `domain.DomainError` (`part_005`): a code and a message. The Go code
compares the sentinel errors by pointer; the sentinels below have pairwise
distinct codes so value equality agrees. -/
structure DomainError where
  code : String
  message : String
deriving DecidableEq

def ErrUserNotFound : DomainError :=
  { code := "USER_NOT_FOUND", message := "User not found" }

def ErrUserAlreadyExists : DomainError :=
  { code := "USER_ALREADY_EXISTS", message := "User with this email already exists" }

def ErrInvalidCredentials : DomainError :=
  { code := "INVALID_CREDENTIALS", message := "Invalid email or password" }

def ErrInvalidToken : DomainError :=
  { code := "INVALID_TOKEN", message := "Invalid or expired token" }

def errValidation (msg : String) : DomainError :=
  { code := "VALIDATION_FAILED", message := msg }

/-- `domain.CreateUserRequest` (`part_005`). -/
structure CreateUserRequest where
  name : String
  email : String
  password : String
  role : String
deriving DecidableEq

/-- `domain.UpdateUserRequest` (`part_005`): `*string` fields become
`Option String`. -/
structure UpdateUserRequest where
  name : Option String
  email : Option String
  role : Option String
deriving DecidableEq

/-- `domain.LoginRequest` (`part_005`). -/
structure LoginRequest where
  email : String
  password : String
deriving DecidableEq

/-! ## In-memory repository (`memoryUserRepository`, `part_008`) -/

/-- The two tables of `memoryUserRepository`: the `users` map
(id → record), the `emails` unique index (email → id) and the `nextID`
counter. The lock is not modelled: executions are sequential. -/
structure RepoState where
  users : List (String × User)
  emails : List (String × String)
  nextID : Nat
deriving DecidableEq

/-- The state `NewMemoryUserRepository` builds: empty maps, `nextID = 1`. -/
def RepoState.empty : RepoState := { users := [], emails := [], nextID := 1 }

/-- `memoryUserRepository.Create` (`part_008` lines 30-54). Go mutates the
caller's record in place (id assignment, timestamps) and stores that same
pointer; here the stored record is returned next to the new state. -/
def RepoState.create (s : RepoState) (now : Nat) (user : User) :
    Except DomainError (RepoState × User) :=
  if (mlookup s.emails user.email).isSome then
    .error ErrUserAlreadyExists
  else
    let uid := if user.id = "" then toString s.nextID else user.id
    let nextID := if user.id = "" then s.nextID + 1 else s.nextID
    let stored := { user with id := uid, createdAt := now, updatedAt := now }
    .ok ({ users := minsert s.users uid stored,
           emails := minsert s.emails stored.email uid,
           nextID := nextID }, stored)

/-- `memoryUserRepository.GetByID` (`part_008` lines 57-69). The Go code
returns `&userCopy`, a copy of the stored record; the copy/alias aspect is
modelled separately by `HeapRepo.getByID` below, the value returned is the
same. -/
def RepoState.getByID (s : RepoState) (id : String) : Except DomainError User :=
  match mlookup s.users id with
  | none => .error ErrUserNotFound
  | some user => .ok user

/-- `memoryUserRepository.GetByEmail` (`part_008` lines 72-85). If the
email index holds an id absent from the users map the Go code dereferences
a nil pointer (a panic); that state is unreachable while the two indices
are coherent, no theorem below exercises the branch, and it is rendered as
not-found here. -/
def RepoState.getByEmail (s : RepoState) (email : String) : Except DomainError User :=
  match mlookup s.emails email with
  | none => .error ErrUserNotFound
  | some userID =>
      match mlookup s.users userID with
      | none => .error ErrUserNotFound
      | some user => .ok user

/-- `memoryUserRepository.Update` (`part_008` lines 88-117). As in `Create`
the Go code mutates the caller's record (id, created-at, updated-at) and
stores that pointer; the stored record is returned next to the new state.
Failures return before any table is touched, so the caller's state is
unchanged on error. -/
def RepoState.update (s : RepoState) (now : Nat) (id : String) (user : User) :
    Except DomainError (RepoState × User) :=
  match mlookup s.users id with
  | none => .error ErrUserNotFound
  | some existingUser =>
      if user.email ≠ existingUser.email ∧ (mlookup s.emails user.email).isSome then
        .error ErrUserAlreadyExists
      else
        let emails :=
          if user.email ≠ existingUser.email then
            minsert (mremove s.emails existingUser.email) user.email id
          else s.emails
        let stored := { user with id := id, createdAt := existingUser.createdAt, updatedAt := now }
        .ok ({ s with users := minsert s.users id stored, emails := emails }, stored)

/-- `memoryUserRepository.Delete` (`part_008` lines 120-134). -/
def RepoState.delete (s : RepoState) (id : String) : Except DomainError RepoState :=
  match mlookup s.users id with
  | none => .error ErrUserNotFound
  | some user =>
      .ok { s with users := mremove s.users id, emails := mremove s.emails user.email }

/-- `memoryUserRepository.Count` (`part_008` lines 172-177). -/
def RepoState.count (s : RepoState) : Nat := s.users.length

/-! ### `memoryUserRepository.List` (`part_008` lines 137-169)

The Go code first copies the users map into a slice by ranging over the
map; Go map iteration order is unspecified, so the function is modelled
over an arbitrary enumeration `entries` of the stored records
(`IsEnumOf`). The nested swap loop is an in-place selection sort on
`CreatedAt` (descending); `selectPass` is one pass of the inner loop:
it walks the suffix carrying the current element, swapping whenever the
carried element's creation time is strictly before the visited one. -/

def selectPass (cur : User) : List User → User × List User
  | [] => (cur, [])
  | x :: xs =>
      if cur.createdAt < x.createdAt then
        let p := selectPass x xs
        (p.1, cur :: p.2)
      else
        let p := selectPass cur xs
        (p.1, x :: p.2)

theorem selectPass_snd_length (cur : User) (l : List User) :
    (selectPass cur l).2.length = l.length := by
  induction l generalizing cur with
  | nil => simp [selectPass]
  | cons x xs ih =>
      by_cases h : cur.createdAt < x.createdAt <;> simp [selectPass, h, ih]

/-- The outer loop of the sort, indexed by the remaining iteration count
(the Go loop runs the outer body once per element; the fuel keeps the
recursion structural and the function kernel-computable). -/
def sortUsersAux : Nat → List User → List User
  | 0, _ => []
  | _, [] => []
  | fuel + 1, x :: xs =>
      let p := selectPass x xs
      p.1 :: sortUsersAux fuel p.2

/-- The sorting loop of `List` (`part_008` lines 148-155). -/
def sortUsers (l : List User) : List User := sortUsersAux l.length l

/-- The pagination tail of `List` (`part_008` lines 157-168), applied to
one enumeration `entries` of the users map. -/
def listUsers (entries : List User) (limit offset : Nat) : List User :=
  let allUsers := sortUsers entries
  if offset > allUsers.length then []
  else
    let stop := min (offset + limit) allUsers.length
    (allUsers.drop offset).take (stop - offset)

/-- `entries` is a possible iteration order of the users map of `s`. -/
def IsEnumOf (entries : List User) (s : RepoState) : Prop :=
  entries.Perm (s.users.map Prod.snd)

theorem selectPass_perm (cur : User) (l : List User) :
    ((selectPass cur l).1 :: (selectPass cur l).2).Perm (cur :: l) := by
  induction l generalizing cur with
  | nil => simp [selectPass]
  | cons x xs ih =>
      by_cases h : cur.createdAt < x.createdAt
      · simp only [selectPass, if_pos h]
        exact (List.Perm.swap cur (selectPass x xs).1 (selectPass x xs).2).trans
          ((ih x).cons cur)
      · simp only [selectPass, if_neg h]
        exact (List.Perm.swap x (selectPass cur xs).1 (selectPass cur xs).2).trans
          (((ih cur).cons x).trans (List.Perm.swap cur x xs))

theorem selectPass_fst_max (cur : User) (l : List User) :
    cur.createdAt ≤ (selectPass cur l).1.createdAt ∧
      ∀ y ∈ l, y.createdAt ≤ (selectPass cur l).1.createdAt := by
  induction l generalizing cur with
  | nil => simp [selectPass]
  | cons x xs ih =>
      by_cases h : cur.createdAt < x.createdAt
      · simp only [selectPass, if_pos h]
        refine ⟨le_trans (le_of_lt h) (ih x).1, ?_⟩
        intro y hy
        rcases List.mem_cons.mp hy with hy | hy
        · exact hy ▸ (ih x).1
        · exact (ih x).2 y hy
      · simp only [selectPass, if_neg h]
        refine ⟨(ih cur).1, ?_⟩
        intro y hy
        rcases List.mem_cons.mp hy with hy | hy
        · exact hy ▸ le_trans (le_of_not_lt h) (ih cur).1
        · exact (ih cur).2 y hy

theorem sortUsersAux_perm : ∀ (n : Nat) (l : List User), l.length ≤ n →
    (sortUsersAux n l).Perm l := by
  intro n
  induction n with
  | zero =>
      intro l hl
      match l with
      | [] => simp [sortUsersAux]
  | succ n ih =>
      intro l hl
      match l with
      | [] => simp [sortUsersAux]
      | x :: xs =>
          rw [sortUsersAux]
          have hlen : (selectPass x xs).2.length ≤ n := by
            rw [selectPass_snd_length]
            simp only [List.length_cons] at hl
            omega
          exact ((ih _ hlen).cons _).trans (selectPass_perm x xs)

theorem sortUsers_perm (l : List User) : (sortUsers l).Perm l :=
  sortUsersAux_perm l.length l le_rfl

theorem sortUsersAux_sorted : ∀ (n : Nat) (l : List User), l.length ≤ n →
    (sortUsersAux n l).Pairwise (fun a b => b.createdAt ≤ a.createdAt) := by
  intro n
  induction n with
  | zero =>
      intro l hl
      match l with
      | [] => simp [sortUsersAux]
  | succ n ih =>
      intro l hl
      match l with
      | [] => simp [sortUsersAux]
      | x :: xs =>
          rw [sortUsersAux]
          have hlen : (selectPass x xs).2.length ≤ n := by
            rw [selectPass_snd_length]
            simp only [List.length_cons] at hl
            omega
          refine List.pairwise_cons.mpr ⟨?_, ih _ hlen⟩
          intro y hy
          have hy2 : y ∈ (selectPass x xs).2 :=
            (sortUsersAux_perm n (selectPass x xs).2 hlen).mem_iff.mp hy
          have hy3 : y ∈ (selectPass x xs).1 :: (selectPass x xs).2 :=
            List.mem_cons_of_mem _ hy2
          have hy4 : y ∈ x :: xs := (selectPass_perm x xs).mem_iff.mp hy3
          rcases List.mem_cons.mp hy4 with hy5 | hy5
          · exact hy5 ▸ (selectPass_fst_max x xs).1
          · exact (selectPass_fst_max x xs).2 y hy5

/-- The loop sorts by creation time, newest first. -/
theorem sortUsers_sorted (l : List User) :
    (sortUsers l).Pairwise (fun a b => b.createdAt ≤ a.createdAt) :=
  sortUsersAux_sorted l.length l le_rfl

/-- The pagination arithmetic of `List` is drop-then-take. -/
theorem listUsers_eq_drop_take (entries : List User) (limit offset : Nat) :
    listUsers entries limit offset = ((sortUsers entries).drop offset).take limit := by
  unfold listUsers
  by_cases h : offset > (sortUsers entries).length
  · rw [if_pos h, List.drop_eq_nil_of_le (le_of_lt h), List.take_nil]
  · rw [if_neg h, List.take_eq_take]
    simp only [List.length_drop]
    omega

/-! ## JWT token service (`jwtTokenService`, `part_010`)

The token is modelled structurally: the signing method from the header,
the decoded claim set, and the signature bytes. Serialization
(base64/JSON) is abstracted away — it is injective, so signing the payload
stands for signing its encoding. The HMAC-SHA256 primitive of the
`golang-jwt` library is a parameter `mac : String → TokenPayload → List Nat`
(secret and signed content to MAC bytes); every theorem holds for an
arbitrary `mac`, in particular for the real one. -/

/-- The signing method named in the token header. The library's keyfunc
check `token.Method.(*jwt.SigningMethodHMAC)` accepts exactly the
HMAC family. -/
inductive SigningMethod where
  | hmacSHA (bits : Nat)
  | rsa (bits : Nat)
  | ecdsa (bits : Nat)
  | noneAlg
deriving DecidableEq

def SigningMethod.isHMAC : SigningMethod → Bool
  | .hmacSHA _ => true
  | _ => false

/-- The claim set `GenerateToken` embeds (`part_010` lines 33-40). -/
structure TokenPayload where
  userID : String
  email : String
  role : String
  exp : Int
  iat : Int
  iss : String
deriving DecidableEq

/-- A signed token: header method, payload, signature bytes. -/
structure SignedToken where
  method : SigningMethod
  payload : TokenPayload
  sig : List Nat
deriving DecidableEq

/-- `jwtTokenService.GenerateToken` (`part_010` lines 29-49): HS256,
`exp = now + expiration`, `iat = now`, issuer `demo-go-api`. -/
def generateToken (mac : String → TokenPayload → List Nat) (secretKey : String)
    (expirationTime : Nat) (now : Int) (user : User) : SignedToken :=
  let payload : TokenPayload :=
    { userID := user.id, email := user.email, role := user.role,
      exp := now + expirationTime, iat := now, iss := "demo-go-api" }
  { method := .hmacSHA 256, payload := payload, sig := mac secretKey payload }

/-- `jwtTokenService.ValidateToken` (`part_010` lines 52-107). `jwt.Parse`
with the keyfunc rejects a non-HMAC method, a signature that does not
match the recomputed MAC, and an expired token (the library accepts a
token while `now` is before `exp`); each failure is mapped to
`domain.ErrInvalidToken`. On success the typed claims are returned — the
map-claims type assertions of lines 75-98 always succeed on a token in
this structural form. -/
def validateToken (mac : String → TokenPayload → List Nat) (secretKey : String)
    (now : Int) (token : SignedToken) : Except DomainError TokenClaims :=
  if ¬ token.method.isHMAC then .error ErrInvalidToken
  else if token.sig ≠ mac secretKey token.payload then .error ErrInvalidToken
  else if ¬ (now < token.payload.exp) then .error ErrInvalidToken
  else .ok { userID := token.payload.userID, email := token.payload.email,
             role := token.payload.role, exp := token.payload.exp,
             iat := token.payload.iat }

/-! ## Auth middleware (`JWTMiddleware`, `part_013`)

`http.Header.Get("Authorization")` returns `""` for a missing header, so
the header is a plain `String`. The terminal outcome of the
`Authenticate`/`RequireRole` chain is reified as `ChainOutcome`:
`reachedBusiness` carries the identity attached to the request context
(`none` for an allow-listed skip). -/

/-- The allow-list built in `NewJWTMiddleware` (`part_013` lines 20-24). -/
def skipPaths : List String := ["/health", "/auth/register", "/auth/login"]

/-- `JWTMiddleware.shouldSkipPath` (`part_013` lines 93-95). -/
def shouldSkipPath (path : String) : Bool := skipPaths.contains path

/-- `JWTMiddleware.extractTokenFromHeader` (`part_013` lines 97-111). -/
def extractTokenFromHeader (authHeader : String) : String :=
  if authHeader = "" then ""
  else if !goHasPrefix authHeader "Bearer " then ""
  else goTrim (goDrop authHeader 7)

inductive AuthOutcome where
  | skipped
  | unauthorizedResp
  | authenticated (claims : TokenClaims)
deriving DecidableEq

/-- `JWTMiddleware.Authenticate` (`part_013` lines 33-63), with the token
service's `ValidateToken` abstracted as `validate`. -/
def authenticate (validate : String → Except DomainError TokenClaims)
    (path authHeader : String) : AuthOutcome :=
  if shouldSkipPath path then .skipped
  else
    let tokenString := extractTokenFromHeader authHeader
    if tokenString = "" then .unauthorizedResp
    else
      match validate tokenString with
      | .error _ => .unauthorizedResp
      | .ok claims => .authenticated claims

inductive RoleOutcome where
  | forbiddenResp
  | proceed
deriving DecidableEq

/-- `JWTMiddleware.RequireRole` (`part_013` lines 66-89): `ctxRole` is the
`user_role` context value installed by `Authenticate` (absent on the skip
path). -/
def requireRole (role : String) (ctxRole : Option String) : RoleOutcome :=
  match ctxRole with
  | none => .forbiddenResp
  | some roleStr => if roleStr ≠ role then .forbiddenResp else .proceed

inductive ChainOutcome where
  | unauthorizedOut
  | forbiddenOut
  | reachedBusiness (identity : Option TokenClaims)
deriving DecidableEq

/-- The middleware chain as wired in the routes: `Authenticate` always,
then `RequireRole` on the routes that demand a role
(`requiredRole = some r`, e.g. `RequireAdmin = RequireRole "admin"`). -/
def middlewareChain (validate : String → Except DomainError TokenClaims)
    (requiredRole : Option String) (path authHeader : String) : ChainOutcome :=
  match authenticate validate path authHeader with
  | .unauthorizedResp => .unauthorizedOut
  | .skipped =>
      match requiredRole with
      | none => .reachedBusiness none
      | some role =>
          match requireRole role none with
          | .forbiddenResp => .forbiddenOut
          | .proceed => .reachedBusiness none
  | .authenticated claims =>
      match requiredRole with
      | none => .reachedBusiness (some claims)
      | some role =>
          match requireRole role (some claims.role) with
          | .forbiddenResp => .forbiddenOut
          | .proceed => .reachedBusiness (some claims)

/-! ## Business service (`userService`, `part_011`)

bcrypt is abstracted: `AuthEnv` supplies `hashPassword` (for
`bcrypt.GenerateFromPassword`, whose error branch never fires for the
short passwords accepted here) and `verifyPassword` (for
`bcrypt.CompareHashAndPassword`, `true` for a nil error). The bcrypt
round-trip contract — verifying a fresh hash of `p` against `p`
succeeds — is a hypothesis where needed. Token-issuing fields mirror
`jwtTokenService`. -/

structure AuthEnv where
  hashPassword : String → String
  verifyPassword : String → String → Bool
  mac : String → TokenPayload → List Nat
  secretKey : String
  expirationTime : Nat

/-- `userService.isValidEmail` (`part_011` lines 299-302): the trimmed
email must contain `"@"` and `"."` (one-character substrings, hence
character containment). -/
def isValidEmail (email : String) : Bool :=
  let e := goTrim email
  goContainsChar e '@' && goContainsChar e '.'

/-- `userService.validateCreateUserRequest` (`part_011` lines 251-273). -/
def validateCreateUserRequest (req : CreateUserRequest) : Option DomainError :=
  if goTrim req.name = "" then some (errValidation "Name is required")
  else if (goTrim req.name).length < 2 then
    some (errValidation "Name must be at least 2 characters long")
  else if goTrim req.email = "" then some (errValidation "Email is required")
  else if !isValidEmail req.email then some (errValidation "Invalid email format")
  else if req.password.length < 6 then
    some (errValidation "Password must be at least 6 characters long")
  else none

/-- `userService.validateLoginRequest` (`part_011` lines 275-285). -/
def validateLoginRequest (req : LoginRequest) : Option DomainError :=
  if goTrim req.email = "" then some (errValidation "Email is required")
  else if req.password = "" then some (errValidation "Password is required")
  else none

/-- `userService.validateUpdateUserRequest` (`part_011` lines 287-297). -/
def validateUpdateUserRequest (req : UpdateUserRequest) : Option DomainError :=
  if req.name.any (fun n => (goTrim n).length < 2) then
    some (errValidation "Name must be at least 2 characters long")
  else if req.email.any (fun e => !isValidEmail e) then
    some (errValidation "Invalid email format")
  else none

/-- The user entity `Register` builds before saving (`part_011` lines
72-78, with the hashed password of line 58 and the role defaulting of
lines 64-68 folded in). -/
def registerUser (env : AuthEnv) (req : CreateUserRequest) : User :=
  { id := "", name := goTrim req.name, email := goToLower (goTrim req.email),
    password := env.hashPassword req.password,
    role := if req.role = "" then "user" else req.role,
    createdAt := 0, updatedAt := 0 }

/-- `userService.Register` (`part_011` lines 33-89). Note the
already-exists pre-check looks up the raw `req.email`, while the stored
account carries the normalized `strings.ToLower(strings.TrimSpace(...))`
form. -/
def serviceRegister (env : AuthEnv) (s : RepoState) (now : Nat) (req : CreateUserRequest) :
    Except DomainError (RepoState × UserResponse) :=
  match validateCreateUserRequest req with
  | some e => .error e
  | none =>
      match s.getByEmail req.email with
      | .ok _ => .error ErrUserAlreadyExists
      | .error e =>
          if e ≠ ErrUserNotFound then .error e
          else
            match s.create now (registerUser env req) with
            | .error e => .error e
            | .ok (s2, stored) => .ok (s2, stored.toResponse)

/-- `userService.Login` (`part_011` lines 92-127): looks up the
normalized email, maps not-found to invalid-credentials, verifies the
bcrypt hash and issues a token. -/
def serviceLogin (env : AuthEnv) (s : RepoState) (now : Int) (req : LoginRequest) :
    Except DomainError (SignedToken × UserResponse) :=
  match validateLoginRequest req with
  | some e => .error e
  | none =>
      match s.getByEmail (goToLower (goTrim req.email)) with
      | .error e => if e = ErrUserNotFound then .error ErrInvalidCredentials else .error e
      | .ok user =>
          if !env.verifyPassword user.password req.password then .error ErrInvalidCredentials
          else
            .ok (generateToken env.mac env.secretKey env.expirationTime now user,
                 user.toResponse)

/-- `userService.GetProfile` (`part_011` lines 130-137). -/
def serviceGetProfile (s : RepoState) (userID : String) : Except DomainError UserResponse :=
  match s.getByID userID with
  | .error e => .error e
  | .ok user => .ok user.toResponse

/-- The name merge of `UpdateProfile` (`part_011` lines 156-158). -/
def updateMergeName (existingUser : User) (req : UpdateUserRequest) : User :=
  match req.name with
  | some n => { existingUser with name := goTrim n }
  | none => existingUser

/-- The email merge with its uniqueness pre-check (`part_011` lines
160-173): when an email is supplied and actually changes, a lookup of the
normalized new email must come back not-found. -/
def updateCheckEmail (s : RepoState) (existingUser withName : User)
    (req : UpdateUserRequest) : Except DomainError User :=
  match req.email with
  | none => .ok withName
  | some e0 =>
      let newEmail := goToLower (goTrim e0)
      if newEmail ≠ existingUser.email then
        match s.getByEmail newEmail with
        | .ok _ => .error ErrUserAlreadyExists
        | .error e =>
            if e ≠ ErrUserNotFound then .error e
            else .ok { withName with email := newEmail }
      else .ok { withName with email := newEmail }

/-- The role merge of `UpdateProfile` (`part_011` lines 175-177). -/
def updateMergeRole (u2 : User) (req : UpdateUserRequest) : User :=
  match req.role with
  | some r => { u2 with role := r }
  | none => u2

/-- `userService.UpdateProfile` (`part_011` lines 140-185): field-wise
merge onto a copy of the stored record, with a normalized-email
uniqueness pre-check when the email actually changes, then a repository
update. The response is built from the record the repository stored
(Go mutates and stores the service's `updatedUser` in place). -/
def serviceUpdateProfile (s : RepoState) (now : Nat) (userID : String)
    (req : UpdateUserRequest) : Except DomainError (RepoState × UserResponse) :=
  match s.getByID userID with
  | .error e => .error e
  | .ok existingUser =>
      match validateUpdateUserRequest req with
      | some e => .error e
      | none =>
          match updateCheckEmail s existingUser (updateMergeName existingUser req) req with
          | .error e => .error e
          | .ok u2 =>
              match s.update now userID (updateMergeRole u2 req) with
              | .error e => .error e
              | .ok (s2, stored) => .ok (s2, stored.toResponse)

/-! ## Cache-aside decorator (`cachedUserService`, `part_012`; cache
client `internal/cache/redis.go`)

The Redis cache is an explicit table from user id to cached projection
(TTL expiry is not modelled; no claim involves it). Each cache call takes
a fault flag: a faulted call leaves the cache unchanged and reports an
error, which is a realizable behaviour of the client. `redisCache.GetUser`
maps `redis.Nil` to `domain.ErrUserNotFound` (a miss) and passes other
errors through (`redis.go` lines 91-110), which `cachedUserService`
distinguishes only for logging. -/

def CacheState := List (String × UserResponse)
deriving instance DecidableEq for CacheState

inductive CacheReadResult where
  | hit (user : UserResponse)
  | miss
  | failed
deriving DecidableEq

/-- `redisCache.GetUser` with a fault flag. -/
def cacheGetUser (c : CacheState) (gfault : Bool) (userID : String) : CacheReadResult :=
  if gfault then .failed
  else
    match mlookup c userID with
    | none => .miss
    | some u => .hit u

/-- `redisCache.SetUser` with a fault flag; the `Bool` is success. -/
def cacheSetUser (c : CacheState) (sfault : Bool) (userID : String) (user : UserResponse) :
    CacheState × Bool :=
  if sfault then (c, false) else (minsert c userID user, true)

/-- `redisCache.DeleteUser` with a fault flag; the `Bool` is success. -/
def cacheDeleteUser (c : CacheState) (dfault : Bool) (userID : String) : CacheState × Bool :=
  if dfault then (c, false) else (mremove c userID, true)

/-- The decorator's state: the wrapped service's repository plus the
cache contents. -/
structure CachedState where
  repo : RepoState
  cache : CacheState
deriving DecidableEq

/-- `cachedUserService.GetProfile` (`part_012` lines 75-109). The last
component counts calls into the underlying `userService` (the
observable the spec's call-counter property uses): a hit returns
immediately without one; a miss or a cache error falls through to the
service, and a set failure is only logged. -/
def cachedGetProfile (st : CachedState) (gfault sfault : Bool) (userID : String) :
    Except DomainError UserResponse × CacheState × Nat :=
  match cacheGetUser st.cache gfault userID with
  | .hit user => (.ok user, st.cache, 0)
  | _ =>
      match serviceGetProfile st.repo userID with
      | .error e => (.error e, st.cache, 1)
      | .ok user => (.ok user, (cacheSetUser st.cache sfault userID user).1, 1)

/-- `cachedUserService.UpdateProfile` (`part_012` lines 112-138):
delegate, then delete the cache entry, then set the fresh projection;
both cache errors are only logged. -/
def cachedUpdateProfile (st : CachedState) (dfault sfault : Bool) (now : Nat)
    (userID : String) (req : UpdateUserRequest) :
    Except DomainError UserResponse × CachedState :=
  match serviceUpdateProfile st.repo now userID req with
  | .error e => (.error e, st)
  | .ok (s2, user) =>
      let c1 := (cacheDeleteUser st.cache dfault userID).1
      let c2 := (cacheSetUser c1 sfault userID user).1
      (.ok user, { repo := s2, cache := c2 })

/-! ## Pointer-level repository reads (`part_008` lines 57-85)

`GetByID`/`GetByEmail` return `&userCopy` — a pointer to a fresh copy of
the stored record. To state that callers cannot mutate internal state
through the returned value, records live in an explicit heap (a list of
cells addressed by index); the users table maps ids to cell addresses.
`getByID`/`getByEmail` allocate the copy (`userCopy := *user`) and return
its fresh address together with the extended heap. -/

def readPtr (heap : List User) (p : Nat) : Option User := heap[p]?

def writePtr (heap : List User) (p : Nat) (v : User) : List User := heap.set p v

structure HeapRepo where
  heap : List User
  users : List (String × Nat)
  emails : List (String × String)
deriving DecidableEq

/-- Every stored address points into the heap. -/
def HeapRepo.WF (r : HeapRepo) : Prop := ∀ q ∈ r.users, q.2 < r.heap.length

instance (r : HeapRepo) : Decidable r.WF := by
  unfold HeapRepo.WF
  infer_instance

/-- `memoryUserRepository.GetByID` at pointer level. The inner `none`
branch (a stored address outside the heap) cannot occur under `WF`. -/
def HeapRepo.getByID (r : HeapRepo) (id : String) : Except DomainError (HeapRepo × Nat) :=
  match mlookup r.users id with
  | none => .error ErrUserNotFound
  | some ptr =>
      match readPtr r.heap ptr with
      | none => .error ErrUserNotFound
      | some user => .ok ({ r with heap := r.heap ++ [user] }, r.heap.length)

/-- `memoryUserRepository.GetByEmail` at pointer level; as with
`RepoState.getByEmail`, the dangling-index branch (Go: nil dereference)
is rendered as not-found and exercised by no theorem. -/
def HeapRepo.getByEmail (r : HeapRepo) (email : String) :
    Except DomainError (HeapRepo × Nat) :=
  match mlookup r.emails email with
  | none => .error ErrUserNotFound
  | some userID =>
      match mlookup r.users userID with
      | none => .error ErrUserNotFound
      | some ptr =>
          match readPtr r.heap ptr with
          | none => .error ErrUserNotFound
          | some user => .ok ({ r with heap := r.heap ++ [user] }, r.heap.length)

/-! ## Repository operation sequences (for the two-index invariant) -/

inductive RepoOp where
  | createOp (now : Nat) (user : User)
  | updateOp (now : Nat) (id : String) (user : User)
  | deleteOp (id : String)
deriving DecidableEq

/-- One repository call; a failed call leaves the state as it was (every
failing branch of `part_008` returns before touching the maps). -/
def applyOp (s : RepoState) : RepoOp → RepoState
  | .createOp now user =>
      match s.create now user with
      | .ok (s2, _) => s2
      | .error _ => s
  | .updateOp now id user =>
      match s.update now id user with
      | .ok (s2, _) => s2
      | .error _ => s
  | .deleteOp id =>
      match s.delete id with
      | .ok s2 => s2
      | .error _ => s

def runOps (s : RepoState) (ops : List RepoOp) : RepoState := ops.foldl applyOp s

/-- The id `Create` will store under (`part_008` lines 39-43). -/
def createId (s : RepoState) (user : User) : String :=
  if user.id = "" then toString s.nextID else user.id

/-- `Create` never overwrites: along the whole run, no `Create` stores
under an id already present in the users table. -/
def noCreateOverwrites (s : RepoState) : List RepoOp → Bool
  | [] => true
  | .createOp now user :: rest =>
      (mlookup s.users (createId s user)).isNone &&
        noCreateOverwrites (applyOp s (.createOp now user)) rest
  | .updateOp now id user :: rest =>
      noCreateOverwrites (applyOp s (.updateOp now id user)) rest
  | .deleteOp id :: rest => noCreateOverwrites (applyOp s (.deleteOp id)) rest

/-- The two-index coherence of the claim: an id is in the users table iff
its record's email maps back to it, and — the dash clause — every email
entry points to an account that exists and carries that email. -/
def Coherent (s : RepoState) : Prop :=
  (∀ id u, mlookup s.users id = some u → mlookup s.emails u.email = some id) ∧
  (∀ e id, mlookup s.emails e = some id →
    ∃ u, mlookup s.users id = some u ∧ u.email = e)

/-! ## C3 — list ordering and pagination

The spec's tie-break order, in both possible readings (identifier
ascending or descending on equal creation times). -/

/-- Go's `<` on strings: lexicographic byte comparison. -/
def charListLt : List Char → List Char → Bool
  | [], [] => false
  | [], _ :: _ => true
  | _ :: _, [] => false
  | c :: cs, d :: ds =>
      if c.val < d.val then true
      else if d.val < c.val then false
      else charListLt cs ds

def strLt (a b : String) : Bool := charListLt a.data b.data

def TieBreakAsc (l : List User) : Prop :=
  l.Pairwise (fun a b =>
    b.createdAt < a.createdAt ∨ (b.createdAt = a.createdAt ∧ strLt a.id b.id = true))

def TieBreakDesc (l : List User) : Prop :=
  l.Pairwise (fun a b =>
    b.createdAt < a.createdAt ∨ (b.createdAt = a.createdAt ∧ strLt b.id a.id = true))

/-- Two records created at the same instant, under distinct ids. -/
def c3UserA : User := ⟨"1", "a", "a@x", "", "user", 5, 5⟩

def c3UserB : User := ⟨"2", "b", "b@x", "", "user", 5, 5⟩

def c3State : RepoState :=
  ⟨[("1", c3UserA), ("2", c3UserB)], [("a@x", "1"), ("b@x", "2")], 3⟩

/-- C3 counterexample: the sort loop of `List` compares only creation
times, so no comparison ever consults the identifier; the order of
records with equal creation times is whatever the (unstable) swap pass
makes of the unspecified map-iteration order. Both enumeration orders of
this two-record state are possible map iterations; on each, the function
returns the records in the order given (verified by computation), so the
two runs return opposite orders for the tied pair, and whichever way the
claimed identifier tie-break is read, one of the two outputs violates
it — `List` does not break ties by identifier. -/
theorem C3_counterexample :
    IsEnumOf [c3UserA, c3UserB] c3State ∧
    IsEnumOf [c3UserB, c3UserA] c3State ∧
    c3UserA.createdAt = c3UserB.createdAt ∧
    c3UserA.id ≠ c3UserB.id ∧
    listUsers [c3UserA, c3UserB] 2 0 = [c3UserA, c3UserB] ∧
    listUsers [c3UserB, c3UserA] 2 0 = [c3UserB, c3UserA] ∧
    listUsers [c3UserA, c3UserB] 2 0 ≠ listUsers [c3UserB, c3UserA] 2 0 ∧
    ¬ TieBreakAsc (listUsers [c3UserB, c3UserA] 2 0) ∧
    ¬ TieBreakDesc (listUsers [c3UserA, c3UserB] 2 0) := by
  refine ⟨List.Perm.refl _, List.Perm.swap c3UserA c3UserB [], rfl, by decide, by decide,
    by decide, by decide, ?_, ?_⟩
  · intro h
    rw [(by decide : listUsers [c3UserB, c3UserA] 2 0 = [c3UserB, c3UserA])] at h
    have := (List.pairwise_cons.mp h).1 c3UserA (by simp)
    revert this
    decide
  · intro h
    rw [(by decide : listUsers [c3UserA, c3UserB] 2 0 = [c3UserA, c3UserB])] at h
    have := (List.pairwise_cons.mp h).1 c3UserB (by simp)
    revert this
    decide

/-- C3 (amended): for every enumeration order of the stored records and
all limit/offset, `List` returns the window `[offset, offset+limit)` of
some creation-time-descending ordering of the stored records — the
relative order of records with equal creation times is unspecified (it
depends on the map-iteration order and on the unstable swap sort), and
in particular is not broken by identifier — and an offset at or beyond
the record count yields the empty result rather than an error. -/
theorem C3_list_sorted_pagination (entries : List User) (s : RepoState)
    (limit offset : Nat) (henum : IsEnumOf entries s) :
    (listUsers entries limit offset).Pairwise (fun a b => b.createdAt ≤ a.createdAt) ∧
    listUsers entries limit offset = ((sortUsers entries).drop offset).take limit ∧
    (sortUsers entries).Perm (s.users.map Prod.snd) ∧
    (s.users.length ≤ offset → listUsers entries limit offset = []) := by
  refine ⟨?_, listUsers_eq_drop_take entries limit offset, ?_, ?_⟩
  · rw [listUsers_eq_drop_take]
    exact (sortUsers_sorted entries).sublist
      ((List.take_sublist _ _).trans (List.drop_sublist _ _))
  · exact (sortUsers_perm entries).trans henum
  · intro hoff
    rw [listUsers_eq_drop_take]
    have hlen : (sortUsers entries).length ≤ offset := by
      have h1 : (sortUsers entries).length = entries.length :=
        (sortUsers_perm entries).length_eq
      have h2 : entries.length = (s.users.map Prod.snd).length := henum.length_eq
      rw [h1, h2, List.length_map]
      exact hoff
    rw [List.drop_eq_nil_of_le hlen, List.take_nil]

/-- The spec's pagination scenario: five accounts created at distinct
times 1 < 2 < 3 < 4 < 5. -/
def c3FiveState : RepoState :=
  ⟨[("1", ⟨"1", "u1", "e1@x", "", "user", 1, 1⟩),
    ("2", ⟨"2", "u2", "e2@x", "", "user", 2, 2⟩),
    ("3", ⟨"3", "u3", "e3@x", "", "user", 3, 3⟩),
    ("4", ⟨"4", "u4", "e4@x", "", "user", 4, 4⟩),
    ("5", ⟨"5", "u5", "e5@x", "", "user", 5, 5⟩)],
   [("e1@x", "1"), ("e2@x", "2"), ("e3@x", "3"), ("e4@x", "4"), ("e5@x", "5")], 6⟩

def c3FiveEnum : List User := c3FiveState.users.map Prod.snd

/-- C3 witness: page 2 of the five-account state is sorted newest-first,
equals the drop/take window, and an offset past the end is empty. -/
theorem C3_witness :
    (listUsers c3FiveEnum 2 2).Pairwise (fun a b => b.createdAt ≤ a.createdAt) ∧
    listUsers c3FiveEnum 2 2 = ((sortUsers c3FiveEnum).drop 2).take 2 ∧
    (sortUsers c3FiveEnum).Perm (c3FiveState.users.map Prod.snd) ∧
    (c3FiveState.users.length ≤ 2 → listUsers c3FiveEnum 2 2 = []) :=
  C3_list_sorted_pagination c3FiveEnum c3FiveState 2 2 (List.Perm.refl _)

/-! ## Shape lemmas for the repository and service operations -/

theorem getByEmail_error_eq (s : RepoState) (email : String) (err : DomainError)
    (h : s.getByEmail email = .error err) : err = ErrUserNotFound := by
  unfold RepoState.getByEmail at h
  split at h
  · exact (Except.error.inj h).symm
  · split at h
    · exact (Except.error.inj h).symm
    · simp at h

theorem create_isOk (s : RepoState) (now : Nat) (user : User) :
    (s.create now user).isOk = !(mlookup s.emails user.email).isSome := by
  unfold RepoState.create
  by_cases hmem : (mlookup s.emails user.email).isSome
  · rw [if_pos hmem, hmem]
    rfl
  · rw [if_neg hmem]
    rw [Bool.not_eq_true] at hmem
    rw [hmem]
    rfl

theorem create_ok_shape (s : RepoState) (now : Nat) (user : User) (s2 : RepoState)
    (stored : User) (hok : s.create now user = .ok (s2, stored)) :
    mlookup s.emails user.email = none ∧
    stored = { user with id := createId s user, createdAt := now, updatedAt := now } ∧
    s2 = { users := minsert s.users (createId s user) stored,
           emails := minsert s.emails user.email (createId s user),
           nextID := if user.id = "" then s.nextID + 1 else s.nextID } := by
  unfold RepoState.create at hok
  by_cases hmem : (mlookup s.emails user.email).isSome
  · rw [if_pos hmem] at hok
    simp at hok
  · rw [if_neg hmem] at hok
    simp only [Except.ok.injEq, Prod.mk.injEq] at hok
    obtain ⟨hs2, hst⟩ := hok
    refine ⟨Option.not_isSome_iff_eq_none.mp hmem, hst.symm, ?_⟩
    rw [← hs2, ← hst]
    rfl

theorem serviceRegister_ok_shape (env : AuthEnv) (s : RepoState) (now : Nat)
    (req : CreateUserRequest) (s2 : RepoState) (resp : UserResponse)
    (hok : serviceRegister env s now req = .ok (s2, resp)) :
    validateCreateUserRequest req = none ∧
    mlookup s.emails (goToLower (goTrim req.email)) = none ∧
    ∃ stored : User,
      stored = { id := toString s.nextID, name := goTrim req.name,
                 email := goToLower (goTrim req.email),
                 password := env.hashPassword req.password,
                 role := if req.role = "" then "user" else req.role,
                 createdAt := now, updatedAt := now } ∧
      resp = stored.toResponse ∧
      s2 = { users := minsert s.users (toString s.nextID) stored,
             emails := minsert s.emails (goToLower (goTrim req.email)) (toString s.nextID),
             nextID := s.nextID + 1 } := by
  unfold serviceRegister at hok
  cases hval : validateCreateUserRequest req with
  | some err => rw [hval] at hok; simp at hok
  | none =>
      rw [hval] at hok
      cases hge : s.getByEmail req.email with
      | ok u => rw [hge] at hok; simp at hok
      | error err =>
          rw [hge] at hok
          have herr : err = ErrUserNotFound := getByEmail_error_eq s req.email err hge
          subst herr
          dsimp only at hok
          rw [if_neg (by simp)] at hok
          refine ⟨rfl, ?_⟩
          split at hok
          · simp at hok
          next s3 stored3 hc =>
            obtain ⟨hmem, hst, hs3⟩ := create_ok_shape s now _ s3 stored3 hc
            simp only [Except.ok.injEq, Prod.mk.injEq] at hok
            obtain ⟨hs2, hresp⟩ := hok
            refine ⟨hmem, stored3, ?_, ?_, ?_⟩
            · rw [hst]
              simp [registerUser, createId]
            · rw [← hresp]
            · rw [← hs2, hs3]
              simp [registerUser, createId]

theorem serviceRegister_isOk_char (env : AuthEnv) (s : RepoState) (now : Nat)
    (req : CreateUserRequest) :
    (serviceRegister env s now req).isOk =
      ((validateCreateUserRequest req).isNone &&
       !(s.getByEmail req.email).isOk &&
       !(mlookup s.emails (goToLower (goTrim req.email))).isSome) := by
  unfold serviceRegister
  cases hval : validateCreateUserRequest req with
  | some err => rfl
  | none =>
      cases hge : s.getByEmail req.email with
      | ok u => rfl
      | error err =>
          have herr : err = ErrUserNotFound := getByEmail_error_eq s req.email err hge
          subst herr
          dsimp only
          rw [if_neg (by simp)]
          rcases hc : s.create now (registerUser env req) with e2 | p
          · have h2 := congrArg Except.isOk hc
            rw [create_isOk] at h2
            simp only [registerUser] at h2
            have hX : (mlookup s.emails (goToLower (goTrim req.email))).isSome = true := by
              cases hmm : (mlookup s.emails (goToLower (goTrim req.email))).isSome
              · rw [hmm] at h2
                simp [Except.isOk, Except.toBool] at h2
              · rfl
            rw [hX]
            rfl
          · obtain ⟨s3, stored3⟩ := p
            have h2 := congrArg Except.isOk hc
            rw [create_isOk] at h2
            simp only [registerUser] at h2
            have hX : (mlookup s.emails (goToLower (goTrim req.email))).isSome = false := by
              cases hmm : (mlookup s.emails (goToLower (goTrim req.email))).isSome
              · rfl
              · rw [hmm] at h2
                simp [Except.isOk, Except.toBool] at h2
            rw [hX]
            rfl

/-! ## C10 — register accepts any role verbatim -/

/-- C10: whenever `Register` succeeds, the returned projection and the
stored account carry exactly the requested role when it is non-empty
(including `"admin"`), and `"user"` only when the requested role is the
empty string; and whether registration succeeds at all never depends on
the requested role. -/
theorem C10_register_role_verbatim (env : AuthEnv) (s : RepoState) (now : Nat)
    (req : CreateUserRequest) :
    (∀ s2 resp, serviceRegister env s now req = .ok (s2, resp) →
      resp.role = (if req.role = "" then "user" else req.role) ∧
      ∃ stored, mlookup s2.users resp.id = some stored ∧
        stored.role = (if req.role = "" then "user" else req.role)) ∧
    (∀ r1 r2 : String,
      (serviceRegister env s now { req with role := r1 }).isOk =
      (serviceRegister env s now { req with role := r2 }).isOk) := by
  constructor
  · intro s2 resp hok
    obtain ⟨hval, hfresh, stored, hst, hresp, hs2⟩ :=
      serviceRegister_ok_shape env s now req s2 resp hok
    subst hst
    subst hresp
    subst hs2
    exact ⟨rfl, _, mlookup_minsert_self _ _ _, rfl⟩
  · intro r1 r2
    rw [serviceRegister_isOk_char, serviceRegister_isOk_char]
    rfl

/-- C10 witness: registering with the caller-supplied role `"admin"`
stores and returns the role `"admin"` untouched. -/
theorem C10_witness :
    (⟨"1", "Al", "a@x.c", "admin", 7, 7⟩ : UserResponse).role = "admin" ∧
    ∃ stored,
      mlookup [("1", (⟨"1", "Al", "a@x.c", "secret1", "admin", 7, 7⟩ : User))]
          (⟨"1", "Al", "a@x.c", "admin", 7, 7⟩ : UserResponse).id = some stored ∧
        stored.role = "admin" :=
  (C10_register_role_verbatim ⟨fun p => p, fun _ _ => true, fun _ _ => [], "", 1⟩
      RepoState.empty 7 ⟨"Al", "a@x.c", "secret1", "admin"⟩).1
    ⟨[("1", ⟨"1", "Al", "a@x.c", "secret1", "admin", 7, 7⟩)], [("a@x.c", "1")], 2⟩
    ⟨"1", "Al", "a@x.c", "admin", 7, 7⟩ (by rfl)

/-! ## C4 — update semantics -/

/-- C4: `Update` on an absent id fails with not-found; when the supplied
record's email differs from the stored one and is already in the email
index it fails with already-exists (each failure returns before any table
is touched, so the state is unchanged); otherwise it succeeds, stores the
record under the same id with the stored created-at preserved and
updated-at set to the call time, leaves every other account untouched,
and moves the email index entry from the old email to the new one. -/
theorem C4_update_semantics (s : RepoState) (now : Nat) (id : String) (user : User) :
    (mlookup s.users id = none → s.update now id user = .error ErrUserNotFound) ∧
    (∀ ex, mlookup s.users id = some ex → user.email ≠ ex.email →
      (mlookup s.emails user.email).isSome →
      s.update now id user = .error ErrUserAlreadyExists) ∧
    (∀ ex, mlookup s.users id = some ex →
      (user.email = ex.email ∨ mlookup s.emails user.email = none) →
      ∃ s2 stored, s.update now id user = .ok (s2, stored) ∧
        stored = { user with id := id, createdAt := ex.createdAt, updatedAt := now } ∧
        mlookup s2.users id = some stored ∧
        (∀ oid, oid ≠ id → mlookup s2.users oid = mlookup s.users oid) ∧
        (user.email = ex.email → s2.emails = s.emails) ∧
        (user.email ≠ ex.email →
          mlookup s2.emails ex.email = none ∧
          mlookup s2.emails user.email = some id ∧
          ∀ e2, e2 ≠ ex.email → e2 ≠ user.email →
            mlookup s2.emails e2 = mlookup s.emails e2)) := by
  refine ⟨?_, ?_, ?_⟩
  · intro h
    unfold RepoState.update
    rw [h]
  · intro ex hex hne hsome
    unfold RepoState.update
    rw [hex]
    dsimp only
    rw [if_pos ⟨hne, hsome⟩]
  · intro ex hex hcond
    unfold RepoState.update
    rw [hex]
    dsimp only
    have hcond2 : ¬(user.email ≠ ex.email ∧ (mlookup s.emails user.email).isSome = true) := by
      rcases hcond with h | h
      · exact fun hc => hc.1 h
      · intro hc
        rw [h] at hc
        exact Bool.false_ne_true hc.2
    rw [if_neg hcond2]
    by_cases heq : user.email = ex.email
    · refine ⟨_, _, rfl, rfl, mlookup_minsert_self _ _ _,
        fun oid hne => mlookup_minsert_ne _ _ _ _ hne, ?_, fun hne => absurd heq hne⟩
      intro _
      simp [heq]
    · have hnone : mlookup s.emails user.email = none := by
        rcases hcond with h | h
        · exact absurd h heq
        · exact h
      refine ⟨_, _, rfl, rfl, mlookup_minsert_self _ _ _,
        fun oid hne => mlookup_minsert_ne _ _ _ _ hne, fun h => absurd h heq, ?_⟩
      intro hne
      refine ⟨?_, ?_, ?_⟩
      · show mlookup (if user.email ≠ ex.email then
            minsert (mremove s.emails ex.email) user.email id else s.emails) ex.email = none
        rw [if_pos hne]
        rw [mlookup_minsert_ne _ _ _ _ (Ne.symm hne)]
        exact mlookup_mremove_self _ _
      · show mlookup (if user.email ≠ ex.email then
            minsert (mremove s.emails ex.email) user.email id else s.emails) user.email =
          some id
        rw [if_pos hne]
        exact mlookup_minsert_self _ _ _
      · intro e2 hne1 hne2
        show mlookup (if user.email ≠ ex.email then
            minsert (mremove s.emails ex.email) user.email id else s.emails) e2 =
          mlookup s.emails e2
        rw [if_pos hne]
        rw [mlookup_minsert_ne _ _ _ _ hne2]
        exact mlookup_mremove_ne _ _ _ hne1

/-- The two-account repository state the C4 witness runs against. -/
def c4State : RepoState :=
  ⟨[("1", ⟨"1", "A", "a@x", "p", "user", 3, 3⟩),
    ("2", ⟨"2", "B", "b@x", "p", "user", 4, 4⟩)],
   [("a@x", "1"), ("b@x", "2")], 3⟩

/-- C4 witness: updating an absent id is not-found, moving account 1 onto
account 2's email is already-exists, and moving account 1 to a fresh
email succeeds, preserves created-at, refreshes updated-at and relocates
the index entry. -/
theorem C4_witness :
    c4State.update 9 "9" ⟨"", "A", "a@x", "p", "user", 0, 0⟩ = .error ErrUserNotFound ∧
    c4State.update 9 "1" ⟨"", "A", "b@x", "p", "user", 0, 0⟩ =
      .error ErrUserAlreadyExists ∧
    ∃ s2 stored,
      c4State.update 9 "1" ⟨"", "A", "c@x", "p", "user", 0, 0⟩ = .ok (s2, stored) ∧
      stored.createdAt = 3 ∧ stored.updatedAt = 9 ∧
      mlookup s2.emails "a@x" = none ∧ mlookup s2.emails "c@x" = some "1" := by
  refine ⟨(C4_update_semantics c4State 9 "9" ⟨"", "A", "a@x", "p", "user", 0, 0⟩).1
      (by decide),
    (C4_update_semantics c4State 9 "1" ⟨"", "A", "b@x", "p", "user", 0, 0⟩).2.1
      ⟨"1", "A", "a@x", "p", "user", 3, 3⟩ (by decide) (by decide) (by decide), ?_⟩
  obtain ⟨s2, stored, hok, hst, _, _, _, hmoved⟩ :=
    (C4_update_semantics c4State 9 "1" ⟨"", "A", "c@x", "p", "user", 0, 0⟩).2.2
      ⟨"1", "A", "a@x", "p", "user", 3, 3⟩ (by decide) (Or.inr (by decide))
  obtain ⟨hold, hnew, _⟩ := hmoved (by decide)
  exact ⟨s2, stored, hok, by rw [hst], by rw [hst], hold, hnew⟩

theorem update_ok_users (s : RepoState) (now : Nat) (id : String) (user : User)
    (s2 : RepoState) (stored : User) (hok : s.update now id user = .ok (s2, stored)) :
    mlookup s2.users id = some stored := by
  unfold RepoState.update at hok
  cases hex : mlookup s.users id with
  | none => rw [hex] at hok; simp at hok
  | some ex =>
      rw [hex] at hok
      dsimp only at hok
      by_cases hc : user.email ≠ ex.email ∧ (mlookup s.emails user.email).isSome = true
      · rw [if_pos hc] at hok
        simp at hok
      · rw [if_neg hc] at hok
        simp only [Except.ok.injEq, Prod.mk.injEq] at hok
        obtain ⟨hs2, hst⟩ := hok
        rw [← hs2, ← hst]
        exact mlookup_minsert_self _ _ _

theorem serviceUpdateProfile_ok_getProfile (s : RepoState) (now : Nat) (userID : String)
    (req : UpdateUserRequest) (s2 : RepoState) (resp : UserResponse)
    (hok : serviceUpdateProfile s now userID req = .ok (s2, resp)) :
    serviceGetProfile s2 userID = .ok resp := by
  unfold serviceUpdateProfile at hok
  cases hget : s.getByID userID with
  | error e => rw [hget] at hok; simp at hok
  | ok existingUser =>
      rw [hget] at hok
      cases hval : validateUpdateUserRequest req with
      | some e => rw [hval] at hok; simp at hok
      | none =>
          rw [hval] at hok
          dsimp only at hok
          cases hchk : updateCheckEmail s existingUser (updateMergeName existingUser req)
              req with
          | error e => rw [hchk] at hok; simp at hok
          | ok u2 =>
              rw [hchk] at hok
              dsimp only at hok
              cases hupd : s.update now userID (updateMergeRole u2 req) with
              | error e => rw [hupd] at hok; simp at hok
              | ok p =>
                  obtain ⟨s3, stored⟩ := p
                  rw [hupd] at hok
                  simp only [Except.ok.injEq, Prod.mk.injEq] at hok
                  obtain ⟨hs3, hresp⟩ := hok
                  have hl := update_ok_users s now userID (updateMergeRole u2 req) s3
                    stored hupd
                  rw [hs3] at hl
                  unfold serviceGetProfile RepoState.getByID
                  rw [hl]
                  dsimp only
                  rw [hresp]

theorem cachedGetProfile_fst (st : CachedState) (gfault sfault : Bool) (userID : String) :
    (cachedGetProfile st gfault sfault userID).1 =
      (match cacheGetUser st.cache gfault userID with
       | .hit u => .ok u
       | _ => serviceGetProfile st.repo userID) := by
  unfold cachedGetProfile
  cases cacheGetUser st.cache gfault userID with
  | hit u => rfl
  | miss => cases serviceGetProfile st.repo userID <;> rfl
  | failed => cases serviceGetProfile st.repo userID <;> rfl

/-! ## C5 — cache invalidation on the update path -/

/-- The pre-update scenario for C5: one stored account whose projection
sits in the cache. -/
def c5User : User := ⟨"1", "Old", "o@x", "p", "user", 0, 0⟩

def c5Repo : RepoState := ⟨[("1", c5User)], [("o@x", "1")], 2⟩

def c5St : CachedState := ⟨c5Repo, [("1", c5User.toResponse)]⟩

def c5Req : UpdateUserRequest := ⟨some "NewName", none, none⟩

/-- C5 counterexample: when both the cache delete and the cache set fail
during `UpdateProfile` (both errors are only logged), the stale entry
survives, and the immediately following `GetProfile` — with the cache
healthy again — serves the pre-update projection from the cache, which
differs from the updated one. -/
theorem C5_counterexample :
    (cachedUpdateProfile c5St true true 5 "1" c5Req).1 =
      .ok ⟨"1", "NewName", "o@x", "user", 0, 5⟩ ∧
    serviceGetProfile c5St.repo "1" = .ok c5User.toResponse ∧
    (cachedGetProfile (cachedUpdateProfile c5St true true 5 "1" c5Req).2
        false false "1").1 = .ok c5User.toResponse ∧
    c5User.toResponse ≠ (⟨"1", "NewName", "o@x", "user", 0, 5⟩ : UserResponse) :=
  ⟨rfl, rfl, rfl, by decide⟩

/-- C5 (amended): after a successful `UpdateProfile`, an immediately
following `GetProfile` returns exactly the post-update projection —
never the pre-update one where the two differ — provided the cache
delete step or the cache set step succeeded (with both failing, the
counterexample state above serves the stale entry). -/
theorem C5_update_then_get (st : CachedState) (dfault sfault : Bool) (now : Nat)
    (userID : String) (req : UpdateUserRequest) (user : UserResponse) (st1 : CachedState)
    (gfault sfault2 : Bool)
    (hok : cachedUpdateProfile st dfault sfault now userID req = (.ok user, st1))
    (hfault : dfault = false ∨ sfault = false) :
    (cachedGetProfile st1 gfault sfault2 userID).1 = .ok user := by
  unfold cachedUpdateProfile at hok
  cases hsvc : serviceUpdateProfile st.repo now userID req with
  | error e => rw [hsvc] at hok; simp at hok
  | ok p =>
      obtain ⟨s2, u2⟩ := p
      rw [hsvc] at hok
      dsimp only at hok
      simp only [Prod.mk.injEq, Except.ok.injEq] at hok
      obtain ⟨hu, hst1⟩ := hok
      subst hu
      subst hst1
      have hget : serviceGetProfile s2 userID = .ok u2 :=
        serviceUpdateProfile_ok_getProfile st.repo now userID req s2 u2 hsvc
      rw [cachedGetProfile_fst]
      dsimp only
      have hcache :
          mlookup ((cacheSetUser ((cacheDeleteUser st.cache dfault userID).1) sfault userID
              u2).1) userID = some u2 ∨
          mlookup ((cacheSetUser ((cacheDeleteUser st.cache dfault userID).1) sfault userID
              u2).1) userID = none := by
        cases hsf : sfault
        · left
          rw [show (cacheSetUser ((cacheDeleteUser st.cache dfault userID).1) false userID
              u2).1 = minsert ((cacheDeleteUser st.cache dfault userID).1) userID u2
              from rfl]
          exact mlookup_minsert_self _ _ _
        · right
          rcases hfault with hd | hs2
          · subst hd
            rw [show (cacheSetUser ((cacheDeleteUser st.cache false userID).1) true userID
                u2).1 = mremove st.cache userID from rfl]
            exact mlookup_mremove_self _ _
          · rw [hs2] at hsf
            cases hsf
      cases hgf : gfault
      · unfold cacheGetUser
        rw [if_neg (by decide)]
        rcases hcache with hc | hc
        · rw [hc]
        · rw [hc]
          exact hget
      · unfold cacheGetUser
        rw [if_pos rfl]
        exact hget

/-- C5 witness: with the delete step healthy and the set step failing,
the follow-up read returns the fresh projection. -/
theorem C5_witness :
    (cachedGetProfile (cachedUpdateProfile c5St false true 5 "1" c5Req).2
        false false "1").1 = .ok ⟨"1", "NewName", "o@x", "user", 0, 5⟩ :=
  C5_update_then_get c5St false true 5 "1" c5Req ⟨"1", "NewName", "o@x", "user", 0, 5⟩
    (cachedUpdateProfile c5St false true 5 "1" c5Req).2 false false rfl (Or.inl rfl)

theorem mlookup_mem {α : Type} (m : List (String × α)) (k : String) (v : α)
    (h : mlookup m k = some v) : (k, v) ∈ m := by
  induction m with
  | nil => simp [mlookup] at h
  | cons hd tl ih =>
      obtain ⟨k0, v0⟩ := hd
      by_cases h0 : k0 = k
      · subst h0
        rw [mlookup, if_pos rfl] at h
        obtain rfl := Option.some.inj h
        exact List.mem_cons_self _ _
      · rw [mlookup, if_neg h0] at h
        exact List.mem_cons_of_mem _ (ih h)

/-! ## C6 — defensive copies at the repository read boundary -/

/-- C6: on a well-formed heap repository, `GetByID`/`GetByEmail` fail
with not-found for an id or email absent from the tables; for a present
one they allocate a fresh cell holding a copy of the stored record and
return its address, leave both index tables untouched, and overwriting
the returned cell with any value leaves every record reachable through
the id table — hence everything later operations read — exactly as it
was before the call. -/
theorem C6_defensive_copies (r : HeapRepo) (hwf : r.WF) :
    (∀ id, mlookup r.users id = none → r.getByID id = .error ErrUserNotFound) ∧
    (∀ email, mlookup r.emails email = none →
      r.getByEmail email = .error ErrUserNotFound) ∧
    (∀ id ptr, mlookup r.users id = some ptr →
      ∃ r2 q user, r.getByID id = .ok (r2, q) ∧
        readPtr r.heap ptr = some user ∧
        readPtr r2.heap q = some user ∧
        r2.users = r.users ∧ r2.emails = r.emails ∧
        ∀ v id2 p2, mlookup r2.users id2 = some p2 →
          readPtr (writePtr r2.heap q v) p2 = readPtr r.heap p2) ∧
    (∀ email uid ptr, mlookup r.emails email = some uid →
      mlookup r.users uid = some ptr →
      ∃ r2 q user, r.getByEmail email = .ok (r2, q) ∧
        readPtr r.heap ptr = some user ∧
        readPtr r2.heap q = some user ∧
        r2.users = r.users ∧ r2.emails = r.emails ∧
        ∀ v id2 p2, mlookup r2.users id2 = some p2 →
          readPtr (writePtr r2.heap q v) p2 = readPtr r.heap p2) := by
  have frame : ∀ user v id2 p2, mlookup r.users id2 = some p2 →
      readPtr (writePtr (r.heap ++ [user]) r.heap.length v) p2 = readPtr r.heap p2 := by
    intro user v id2 p2 hp2
    have hlt2 : p2 < r.heap.length := hwf (id2, p2) (mlookup_mem _ _ _ hp2)
    show ((r.heap ++ [user]).set r.heap.length v)[p2]? = r.heap[p2]?
    rw [List.getElem?_set_ne (by omega)]
    exact List.getElem?_append_left hlt2
  refine ⟨?_, ?_, ?_, ?_⟩
  · intro id h
    unfold HeapRepo.getByID
    rw [h]
  · intro email h
    unfold HeapRepo.getByEmail
    rw [h]
  · intro id ptr hptr
    have hlt : ptr < r.heap.length := hwf (id, ptr) (mlookup_mem _ _ _ hptr)
    have huser : readPtr r.heap ptr = some (r.heap.get ⟨ptr, hlt⟩) := by
      show r.heap[ptr]? = _
      rw [List.getElem?_eq_getElem hlt]
      rfl
    refine ⟨{ r with heap := r.heap ++ [r.heap.get ⟨ptr, hlt⟩] }, r.heap.length,
      r.heap.get ⟨ptr, hlt⟩, ?_, huser, ?_, rfl, rfl, frame _⟩
    · unfold HeapRepo.getByID
      rw [hptr]
      dsimp only
      rw [huser]
    · exact List.getElem?_concat_length _ _
  · intro email uid ptr hmail hptr
    have hlt : ptr < r.heap.length := hwf (uid, ptr) (mlookup_mem _ _ _ hptr)
    have huser : readPtr r.heap ptr = some (r.heap.get ⟨ptr, hlt⟩) := by
      show r.heap[ptr]? = _
      rw [List.getElem?_eq_getElem hlt]
      rfl
    refine ⟨{ r with heap := r.heap ++ [r.heap.get ⟨ptr, hlt⟩] }, r.heap.length,
      r.heap.get ⟨ptr, hlt⟩, ?_, huser, ?_, rfl, rfl, frame _⟩
    · unfold HeapRepo.getByEmail
      rw [hmail]
      dsimp only
      rw [hptr]
      dsimp only
      rw [huser]
    · exact List.getElem?_concat_length _ _

/-- The one-account heap repository the C6 witness runs against. -/
def c6Repo : HeapRepo :=
  ⟨[⟨"1", "N", "e@x", "p", "user", 0, 0⟩], [("1", 0)], [("e@x", "1")]⟩

/-- C6 witness: reading id `"1"` returns a fresh copy at address 1 while
the stored cell is address 0; reading an absent id is not-found. -/
theorem C6_witness :
    (c6Repo.getByID "9" = .error ErrUserNotFound) ∧
    ∃ r2 q user, c6Repo.getByID "1" = .ok (r2, q) ∧
      readPtr c6Repo.heap 0 = some user ∧
      readPtr r2.heap q = some user ∧
      r2.users = c6Repo.users ∧ r2.emails = c6Repo.emails ∧
      ∀ v id2 p2, mlookup r2.users id2 = some p2 →
        readPtr (writePtr r2.heap q v) p2 = readPtr c6Repo.heap p2 :=
  ⟨(C6_defensive_copies c6Repo (by decide)).1 "9" (by decide),
   (C6_defensive_copies c6Repo (by decide)).2.2.1 "1" 0 (by decide)⟩

/-! ## C2 — two-index coherence invariant -/

theorem update_ok_shape (s : RepoState) (now : Nat) (id : String) (user : User)
    (s2 : RepoState) (stored : User) (hok : s.update now id user = .ok (s2, stored)) :
    ∃ ex, mlookup s.users id = some ex ∧
      ¬(user.email ≠ ex.email ∧ (mlookup s.emails user.email).isSome = true) ∧
      stored = { user with id := id, createdAt := ex.createdAt, updatedAt := now } ∧
      s2 = { s with users := minsert s.users id stored, emails := if user.email ≠ ex.email then minsert (mremove s.emails ex.email) user.email id else s.emails } := by
  unfold RepoState.update at hok
  cases hex : mlookup s.users id with
  | none => rw [hex] at hok; simp at hok
  | some ex =>
      rw [hex] at hok
      dsimp only at hok
      by_cases hcnd : user.email ≠ ex.email ∧ (mlookup s.emails user.email).isSome = true
      · rw [if_pos hcnd] at hok
        simp at hok
      · rw [if_neg hcnd] at hok
        simp only [Except.ok.injEq, Prod.mk.injEq] at hok
        obtain ⟨hs2, hst⟩ := hok
        refine ⟨ex, rfl, hcnd, hst.symm, ?_⟩
        rw [← hs2, hst]

theorem coherent_create (s : RepoState) (now : Nat) (user : User)
    (hc : Coherent s) (hfresh : mlookup s.users (createId s user) = none) :
    Coherent (applyOp s (.createOp now user)) := by
  unfold applyOp
  dsimp only
  cases hres : s.create now user with
  | error e => exact hc
  | ok p =>
      obtain ⟨s2, stored⟩ := p
      dsimp only
      obtain ⟨hmem, hst, hs2⟩ := create_ok_shape s now user s2 stored hres
      subst hs2
      have hse : stored.email = user.email := by rw [hst]
      constructor
      · intro id2 u hu
        by_cases hid : id2 = createId s user
        · subst hid
          rw [mlookup_minsert_self] at hu
          obtain rfl := Option.some.inj hu
          rw [hse]
          exact mlookup_minsert_self _ _ _
        · rw [mlookup_minsert_ne _ _ _ _ hid] at hu
          have h1 := hc.1 id2 u hu
          by_cases hem : u.email = user.email
          · rw [hem, hmem] at h1
            exact absurd h1 (by simp)
          · rw [mlookup_minsert_ne _ _ _ _ hem]
            exact h1
      · intro e id2 he
        by_cases he2 : e = user.email
        · subst he2
          rw [mlookup_minsert_self] at he
          obtain rfl := Option.some.inj he
          exact ⟨stored, mlookup_minsert_self _ _ _, hse⟩
        · rw [mlookup_minsert_ne _ _ _ _ he2] at he
          obtain ⟨u, hu, hue⟩ := hc.2 e id2 he
          by_cases hid : id2 = createId s user
          · rw [hid, hfresh] at hu
            exact absurd hu (by simp)
          · refine ⟨u, ?_, hue⟩
            rw [mlookup_minsert_ne _ _ _ _ hid]
            exact hu

theorem coherent_update (s : RepoState) (now : Nat) (id : String) (user : User)
    (hc : Coherent s) : Coherent (applyOp s (.updateOp now id user)) := by
  unfold applyOp
  dsimp only
  cases hres : s.update now id user with
  | error e => exact hc
  | ok p =>
      obtain ⟨s2, stored⟩ := p
      dsimp only
      obtain ⟨ex, hex, hcnd, hst, hs2⟩ := update_ok_shape s now id user s2 stored hres
      subst hs2
      have hse : stored.email = user.email := by rw [hst]
      by_cases hem : user.email = ex.email
      · rw [if_neg (fun hx => hx hem)]
        constructor
        · intro id2 u hu
          by_cases hid : id2 = id
          · subst hid
            rw [mlookup_minsert_self] at hu
            obtain rfl := Option.some.inj hu
            rw [hse, hem]
            exact hc.1 id2 ex hex
          · rw [mlookup_minsert_ne _ _ _ _ hid] at hu
            exact hc.1 id2 u hu
        · intro e id2 he
          obtain ⟨u, hu, hue⟩ := hc.2 e id2 he
          by_cases hid : id2 = id
          · subst hid
            rw [hex] at hu
            obtain rfl := Option.some.inj hu
            refine ⟨stored, mlookup_minsert_self _ _ _, ?_⟩
            rw [hse, hem]
            exact hue
          · refine ⟨u, ?_, hue⟩
            rw [mlookup_minsert_ne _ _ _ _ hid]
            exact hu
      · have hne : user.email ≠ ex.email := hem
        have hnone : mlookup s.emails user.email = none := by
          cases hx : mlookup s.emails user.email with
          | none => rfl
          | some v => exact absurd ⟨hne, by rw [hx]; rfl⟩ hcnd
        rw [if_pos hne]
        constructor
        · intro id2 u hu
          by_cases hid : id2 = id
          · subst hid
            rw [mlookup_minsert_self] at hu
            obtain rfl := Option.some.inj hu
            rw [hse]
            exact mlookup_minsert_self _ _ _
          · rw [mlookup_minsert_ne _ _ _ _ hid] at hu
            have h1 := hc.1 id2 u hu
            by_cases hemu : u.email = user.email
            · rw [hemu, hnone] at h1
              exact absurd h1 (by simp)
            · rw [mlookup_minsert_ne _ _ _ _ hemu]
              by_cases hemx : u.email = ex.email
              · rw [hemx] at h1
                have h2 := hc.1 id ex hex
                rw [h1] at h2
                exact absurd (Option.some.inj h2) hid
              · rw [mlookup_mremove_ne _ _ _ hemx]
                exact h1
        · intro e id2 he
          by_cases heq : e = user.email
          · subst heq
            rw [mlookup_minsert_self] at he
            obtain rfl := Option.some.inj he
            exact ⟨stored, mlookup_minsert_self _ _ _, hse⟩
          · rw [mlookup_minsert_ne _ _ _ _ heq] at he
            by_cases hex2 : e = ex.email
            · rw [hex2, mlookup_mremove_self] at he
              exact absurd he (by simp)
            · rw [mlookup_mremove_ne _ _ _ hex2] at he
              obtain ⟨u, hu, hue⟩ := hc.2 e id2 he
              by_cases hid : id2 = id
              · rw [hid, hex] at hu
                obtain rfl := Option.some.inj hu
                exact absurd hue.symm hex2
              · refine ⟨u, ?_, hue⟩
                rw [mlookup_minsert_ne _ _ _ _ hid]
                exact hu

theorem coherent_delete (s : RepoState) (id : String) (hc : Coherent s) :
    Coherent (applyOp s (.deleteOp id)) := by
  unfold applyOp
  dsimp only
  cases hres : s.delete id with
  | error e => exact hc
  | ok s2 =>
      dsimp only
      unfold RepoState.delete at hres
      cases hex : mlookup s.users id with
      | none => rw [hex] at hres; simp at hres
      | some user =>
          rw [hex] at hres
          dsimp only at hres
          obtain hs2 := Except.ok.inj hres
          subst hs2
          constructor
          · intro id2 u hu
            by_cases hid : id2 = id
            · rw [hid, mlookup_mremove_self] at hu
              exact absurd hu (by simp)
            · rw [mlookup_mremove_ne _ _ _ hid] at hu
              have h1 := hc.1 id2 u hu
              by_cases hemu : u.email = user.email
              · rw [hemu] at h1
                have h2 := hc.1 id user hex
                rw [h1] at h2
                exact absurd (Option.some.inj h2) hid
              · rw [mlookup_mremove_ne _ _ _ hemu]
                exact h1
          · intro e id2 he
            by_cases hee : e = user.email
            · rw [hee, mlookup_mremove_self] at he
              exact absurd he (by simp)
            · rw [mlookup_mremove_ne _ _ _ hee] at he
              obtain ⟨u, hu, hue⟩ := hc.2 e id2 he
              by_cases hid : id2 = id
              · rw [hid, hex] at hu
                obtain rfl := Option.some.inj hu
                exact absurd hue.symm hee
              · refine ⟨u, ?_, hue⟩
                rw [mlookup_mremove_ne _ _ _ hid]
                exact hu

theorem coherent_empty : Coherent RepoState.empty := by
  constructor
  · intro id u hu
    simp [RepoState.empty, mlookup] at hu
  · intro e id2 he
    simp [RepoState.empty, mlookup] at he

theorem coherent_runOps : ∀ (ops : List RepoOp) (s : RepoState), Coherent s →
    noCreateOverwrites s ops = true → Coherent (runOps s ops) := by
  intro ops
  induction ops with
  | nil => intro s hc _; exact hc
  | cons op rest ih =>
      intro s hc hsafe
      cases op with
      | createOp now user =>
          rw [noCreateOverwrites] at hsafe
          simp only [Bool.and_eq_true] at hsafe
          obtain ⟨h1, h2⟩ := hsafe
          exact ih _ (coherent_create s now user hc (Option.isNone_iff_eq_none.mp h1)) h2
      | updateOp now id user =>
          rw [noCreateOverwrites] at hsafe
          exact ih _ (coherent_update s now id user hc) hsafe
      | deleteOp id =>
          rw [noCreateOverwrites] at hsafe
          exact ih _ (coherent_delete s id hc) hsafe

/-- The run refuting the unrestricted claim: a normal create, a create
whose user carries the already-taken id `"1"` (allowed by `Create`, which
only generates an id when none is supplied), then a delete of `"1"`. -/
def c2Ops : List RepoOp :=
  [.createOp 1 ⟨"", "a", "a@x", "p", "user", 0, 0⟩,
   .createOp 2 ⟨"1", "b", "b@x", "p", "user", 0, 0⟩,
   .deleteOp "1"]

/-- C2 counterexample: after the run above — reachable from the empty
repository by plain `Create`/`Delete` calls, the second carrying a
non-empty ID — the users table is empty while the email index still maps
`"a@x"` to `"1"`: an account exists in one index without the other, so
the claimed invariant does not hold for arbitrary Create arguments. -/
theorem C2_counterexample : ¬ Coherent (runOps RepoState.empty c2Ops) := by
  intro h
  have husers : (runOps RepoState.empty c2Ops).users = [] := by decide
  have hmail : mlookup (runOps RepoState.empty c2Ops).emails "a@x" = some "1" := by decide
  obtain ⟨u, hu, _⟩ := h.2 "a@x" "1" hmail
  rw [husers] at hu
  simp [mlookup] at hu

/-- C2 (amended): in every state reachable from the empty repository by
`Create`/`Update`/`Delete` calls in which no `Create` stores its record
under an id already present — in particular whenever callers leave the
ID empty and let the repository assign it — the two indices cohere: an
account id is in the users table iff its record's email maps back to it,
and every email-index entry points to an existing account carrying that
email. A `Create` handed an already-taken non-empty ID silently
overwrites and breaks this (see the counterexample). -/
theorem C2_two_index_coherence (ops : List RepoOp)
    (hsafe : noCreateOverwrites RepoState.empty ops = true) :
    Coherent (runOps RepoState.empty ops) :=
  coherent_runOps ops RepoState.empty coherent_empty hsafe

/-- A run exercising every operation with repository-assigned ids. -/
def c2GoodOps : List RepoOp :=
  [.createOp 1 ⟨"", "a", "a@x", "p", "user", 0, 0⟩,
   .createOp 2 ⟨"", "b", "b@x", "p", "user", 0, 0⟩,
   .updateOp 3 "1" ⟨"", "a2", "c@x", "p", "user", 0, 0⟩,
   .deleteOp "2"]

/-- C2 witness: the create/create/update/delete run with empty caller
ids satisfies the side condition and ends in a coherent state. -/
theorem C2_witness : Coherent (runOps RepoState.empty c2GoodOps) :=
  C2_two_index_coherence c2GoodOps (by decide)

/-! ## C9 — email case-insensitivity at the service boundary -/

/-- C9: from any state in which neither the raw nor the normalized form
of a valid request's email is registered (and the email index has no
dangling entries, the states the service can actually reach), the first
registration succeeds and stores the lower-cased trimmed email; every
further valid registration whose email is a case variant (same
normalized form) fails with already-exists; and login with any case
variant of the email and the registered password succeeds, returning the
registered account. The bcrypt round-trip contract is the `hverify`
hypothesis. -/
theorem C9_email_case_insensitive (env : AuthEnv) (s : RepoState) (now1 now2 : Nat)
    (now3 : Int) (req : CreateUserRequest)
    (hverify : ∀ p, env.verifyPassword (env.hashPassword p) p = true)
    (hvalid : validateCreateUserRequest req = none)
    (hraw : mlookup s.emails req.email = none)
    (hnorm : mlookup s.emails (goToLower (goTrim req.email)) = none)
    (hnd : ∀ e i, mlookup s.emails e = some i → (mlookup s.users i).isSome = true) :
    ∃ s1 resp, serviceRegister env s now1 req = .ok (s1, resp) ∧
      resp.email = goToLower (goTrim req.email) ∧
      (∀ req2 : CreateUserRequest, validateCreateUserRequest req2 = none →
        goToLower (goTrim req2.email) = goToLower (goTrim req.email) →
        serviceRegister env s1 now2 req2 = .error ErrUserAlreadyExists) ∧
      (∀ email3 : String, goToLower (goTrim email3) = goToLower (goTrim req.email) →
        ∃ tok, serviceLogin env s1 now3 ⟨email3, req.password⟩ = .ok (tok, resp)) := by
  have hconds : ¬(goTrim req.name = "") ∧ ¬((goTrim req.name).length < 2) ∧
      ¬(goTrim req.email = "") ∧ isValidEmail req.email = true ∧
      ¬(req.password.length < 6) := by
    unfold validateCreateUserRequest at hvalid
    split_ifs at hvalid with h1 h2 h3 h4 h5
    all_goals try simp at hvalid
    exact ⟨h1, h2, h3, by simpa using h4, h5⟩
  have hge : s.getByEmail req.email = .error ErrUserNotFound := by
    unfold RepoState.getByEmail
    rw [hraw]
  have hok1 : (serviceRegister env s now1 req).isOk = true := by
    rw [serviceRegister_isOk_char, hvalid, hge, hnorm]
    rfl
  obtain ⟨p1, hp1⟩ : ∃ p, serviceRegister env s now1 req = .ok p := by
    cases hx : serviceRegister env s now1 req with
    | error e =>
        rw [hx] at hok1
        simp [Except.isOk, Except.toBool] at hok1
    | ok p => exact ⟨p, rfl⟩
  obtain ⟨s1, resp⟩ := p1
  obtain ⟨_, hfresh, stored, hst, hresp, hs1⟩ :=
    serviceRegister_ok_shape env s now1 req s1 resp hp1
  refine ⟨s1, resp, hp1, by rw [hresp, hst]; rfl, ?_, ?_⟩
  · -- a second registration with a case-variant email
    intro req2 hval2 hnorm2
    unfold serviceRegister
    rw [hval2]
    cases hge2 : s1.getByEmail req2.email with
    | ok u => rfl
    | error err =>
        have herr := getByEmail_error_eq s1 req2.email err hge2
        subst herr
        dsimp only
        rw [if_neg (by simp)]
        have hmem : mlookup s1.emails (goToLower (goTrim req2.email)) =
            some (toString s.nextID) := by
          rw [hnorm2, hs1]
          exact mlookup_minsert_self _ _ _
        unfold RepoState.create
        rw [show mlookup s1.emails (registerUser env req2).email =
            some (toString s.nextID) from hmem]
        rfl
  · -- login with a case-variant email
    intro email3 hnorm3
    have hlv : validateLoginRequest ⟨email3, req.password⟩ = none := by
      unfold validateLoginRequest
      rw [if_neg ?he, if_neg ?hp]
      case he =>
        intro hempty
        have hempty2 : goTrim email3 = "" := hempty
        have h0 : goToLower (goTrim email3) = "" := by
          rw [hempty2]
          rfl
        rw [hnorm3] at h0
        exact hconds.2.2.1 (goToLower_eq_empty h0)
      case hp =>
        intro hempty
        have hempty2 : req.password = "" := hempty
        have h6 := hconds.2.2.2.2
        rw [hempty2] at h6
        exact h6 (by decide)
    have hs1email : mlookup s1.emails (goToLower (goTrim email3)) =
        some (toString s.nextID) := by
      rw [hnorm3, hs1]
      exact mlookup_minsert_self _ _ _
    have hs1user : mlookup s1.users (toString s.nextID) = some stored := by
      rw [hs1]
      exact mlookup_minsert_self _ _ _
    have hgeL : s1.getByEmail (goToLower (goTrim email3)) = .ok stored := by
      unfold RepoState.getByEmail
      rw [hs1email]
      dsimp only
      rw [hs1user]
    refine ⟨generateToken env.mac env.secretKey env.expirationTime now3 stored, ?_⟩
    unfold serviceLogin
    rw [hlv]
    dsimp only
    rw [show s1.getByEmail (goToLower (goTrim email3)) = .ok stored from hgeL]
    dsimp only
    have hpw : env.verifyPassword stored.password req.password = true := by
      rw [hst]
      exact hverify req.password
    rw [hpw]
    rw [if_neg (by decide)]
    rw [hresp, hst]

/-- C9 witness: registering `"Ab@X.c"` on the empty repository succeeds
storing `"ab@x.c"`; the theorem then rules out any case-variant second
registration and admits any case-variant login. -/
theorem C9_witness :
    ∃ s1 resp,
      serviceRegister ⟨fun p => p, fun _ _ => true, fun _ _ => [], "", 1⟩ RepoState.empty 1
          ⟨"Al", "Ab@X.c", "secret1", ""⟩ = .ok (s1, resp) ∧
      resp.email = goToLower (goTrim "Ab@X.c") ∧
      (∀ req2 : CreateUserRequest, validateCreateUserRequest req2 = none →
        goToLower (goTrim req2.email) = goToLower (goTrim "Ab@X.c") →
        serviceRegister ⟨fun p => p, fun _ _ => true, fun _ _ => [], "", 1⟩ s1 2 req2 =
          .error ErrUserAlreadyExists) ∧
      (∀ email3 : String, goToLower (goTrim email3) = goToLower (goTrim "Ab@X.c") →
        ∃ tok, serviceLogin ⟨fun p => p, fun _ _ => true, fun _ _ => [], "", 1⟩ s1 3
            ⟨email3, "secret1"⟩ = .ok (tok, resp)) :=
  C9_email_case_insensitive ⟨fun p => p, fun _ _ => true, fun _ _ => [], "", 1⟩
    RepoState.empty 1 2 3 ⟨"Al", "Ab@X.c", "secret1", ""⟩
    (fun _ => rfl) (by decide) (by decide) (by decide)
    (by intro e i h; simp [RepoState.empty, mlookup] at h)

/-! ## C1 — token round-trip -/

/-- C1: for every HMAC function, secret, positive lifetime, clock value
and user, validating a token freshly issued for that user succeeds and
returns claims carrying exactly the user's id, email and role; and
changing any one position of the issued token's signature to a different
byte makes validation fail with the invalid-token error. -/
theorem C1_token_round_trip (mac : String → TokenPayload → List Nat) (secretKey : String)
    (expirationTime : Nat) (now : Int) (user : User) (hexp : 0 < expirationTime) :
    validateToken mac secretKey now (generateToken mac secretKey expirationTime now user) =
      .ok { userID := user.id, email := user.email, role := user.role,
            exp := now + (expirationTime : Int), iat := now } ∧
    ∀ (i : Nat) (v : Nat)
      (hi : i < (generateToken mac secretKey expirationTime now user).sig.length),
      v ≠ (generateToken mac secretKey expirationTime now user).sig.get ⟨i, hi⟩ →
      validateToken mac secretKey now
        { generateToken mac secretKey expirationTime now user with
          sig := (generateToken mac secretKey expirationTime now user).sig.set i v } =
        .error ErrInvalidToken := by
  constructor
  · have hlt : now < now + (expirationTime : Int) := by omega
    simp [validateToken, generateToken, SigningMethod.isHMAC, hlt]
  · intro i v hi hv
    have hsig : (generateToken mac secretKey expirationTime now user).sig =
        mac secretKey (generateToken mac secretKey expirationTime now user).payload := rfl
    have hne : (generateToken mac secretKey expirationTime now user).sig.set i v ≠
        mac secretKey (generateToken mac secretKey expirationTime now user).payload := by
      intro he
      apply hv
      have h1 : ((generateToken mac secretKey expirationTime now user).sig.set i v)[i]? =
          some v := List.getElem?_set_self (by simpa using hi)
      rw [he, ← hsig] at h1
      have h2 : (generateToken mac secretKey expirationTime now user).sig[i]? =
          some ((generateToken mac secretKey expirationTime now user).sig.get ⟨i, hi⟩) := by
        simp [List.getElem?_eq_getElem hi]
      rw [h1] at h2
      exact Option.some.inj h2
    simp [validateToken, SigningMethod.isHMAC, hne]

/-- C1 witness: a concrete MAC, secret, lifetime and user; the round
trip succeeds and flipping signature byte 0 fails with invalid-token. -/
theorem C1_witness :
    validateToken (fun s p => [s.length + p.userID.length]) "k" 0
        (generateToken (fun s p => [s.length + p.userID.length]) "k" 60 0
          ⟨"7", "N", "e@x", "pw", "user", 0, 0⟩) =
      .ok { userID := "7", email := "e@x", role := "user", exp := 0 + (60 : Nat), iat := 0 } ∧
    validateToken (fun s p => [s.length + p.userID.length]) "k" 0
        { generateToken (fun s p => [s.length + p.userID.length]) "k" 60 0
            ⟨"7", "N", "e@x", "pw", "user", 0, 0⟩ with
          sig := (generateToken (fun s p => [s.length + p.userID.length]) "k" 60 0
            ⟨"7", "N", "e@x", "pw", "user", 0, 0⟩).sig.set 0 5 } =
      .error ErrInvalidToken :=
  ⟨(C1_token_round_trip (fun s p => [s.length + p.userID.length]) "k" 60 0
      ⟨"7", "N", "e@x", "pw", "user", 0, 0⟩ (by decide)).1,
   (C1_token_round_trip (fun s p => [s.length + p.userID.length]) "k" 60 0
      ⟨"7", "N", "e@x", "pw", "user", 0, 0⟩ (by decide)).2 0 5 (by decide) (by decide)⟩

/-! ## C7 — cache failures never surface on the read path -/

/-- C7: on a cache hit `GetProfile` answers from the cache with no call
into the business service; on a miss or a cache-read failure it returns
exactly what the business service returns (with one call); and the
caller-visible result never depends on whether the cache write-back
fails. -/
theorem C7_cache_failures_never_surface (st : CachedState) (gfault sfault : Bool)
    (userID : String) :
    (∀ user, cacheGetUser st.cache gfault userID = .hit user →
      cachedGetProfile st gfault sfault userID = (.ok user, st.cache, 0)) ∧
    ((cacheGetUser st.cache gfault userID = .miss ∨
      cacheGetUser st.cache gfault userID = .failed) →
      (cachedGetProfile st gfault sfault userID).1 = serviceGetProfile st.repo userID ∧
      (cachedGetProfile st gfault sfault userID).2.2 = 1) ∧
    (cachedGetProfile st gfault true userID).1 =
      (cachedGetProfile st gfault false userID).1 := by
  refine ⟨?_, ?_, ?_⟩
  · intro user hhit
    simp [cachedGetProfile, hhit]
  · intro hmiss
    rcases hmiss with hm | hm <;>
      · rw [cachedGetProfile, hm]
        cases hsvc : serviceGetProfile st.repo userID <;> simp
  · cases hres : cacheGetUser st.cache gfault userID with
    | hit u => rw [cachedGetProfile, cachedGetProfile, hres]
    | miss =>
        rw [cachedGetProfile, cachedGetProfile, hres]
        cases hsvc : serviceGetProfile st.repo userID <;> simp
    | failed =>
        rw [cachedGetProfile, cachedGetProfile, hres]
        cases hsvc : serviceGetProfile st.repo userID <;> simp

/-- C7 witness: a one-user repository; with the projection cached, the
read is served from the cache without a service call; with an empty
cache and a faulted read, the service result is passed through. -/
theorem C7_witness :
    cachedGetProfile
        ⟨⟨[("1", ⟨"1", "N", "e@x", "pw", "user", 0, 0⟩)], [("e@x", "1")], 2⟩,
         [("1", ⟨"1", "N", "e@x", "user", 0, 0⟩)]⟩ false false "1" =
      (.ok ⟨"1", "N", "e@x", "user", 0, 0⟩,
       [("1", ⟨"1", "N", "e@x", "user", 0, 0⟩)], 0) ∧
    (cachedGetProfile
        ⟨⟨[("1", ⟨"1", "N", "e@x", "pw", "user", 0, 0⟩)], [("e@x", "1")], 2⟩, []⟩
        true false "1").1 =
      serviceGetProfile ⟨[("1", ⟨"1", "N", "e@x", "pw", "user", 0, 0⟩)], [("e@x", "1")], 2⟩
        "1" :=
  ⟨(C7_cache_failures_never_surface
      ⟨⟨[("1", ⟨"1", "N", "e@x", "pw", "user", 0, 0⟩)], [("e@x", "1")], 2⟩,
       [("1", ⟨"1", "N", "e@x", "user", 0, 0⟩)]⟩ false false "1").1
      ⟨"1", "N", "e@x", "user", 0, 0⟩ (by decide),
   ((C7_cache_failures_never_surface
      ⟨⟨[("1", ⟨"1", "N", "e@x", "pw", "user", 0, 0⟩)], [("e@x", "1")], 2⟩, []⟩
      true false "1").2.1 (Or.inr (by decide))).1⟩

/-! ## C8 — auth middleware outcomes -/

/-- C8: an allow-listed path passes through with no identity attached
whatever the header or validator; on a protected path a missing or
non-Bearer Authorization header is rejected as unauthorized for every
role requirement; a token that validates to claims whose role differs
from the required role is rejected as forbidden; and a matching role
proceeds to the business layer with the claims attached. -/
theorem C8_auth_middleware_outcomes (validate : String → Except DomainError TokenClaims)
    (path authHeader : String) :
    (shouldSkipPath path = true →
      middlewareChain validate none path authHeader = .reachedBusiness none) ∧
    (shouldSkipPath path = false →
      (authHeader = "" ∨ goHasPrefix authHeader "Bearer " = false) →
      ∀ requiredRole, middlewareChain validate requiredRole path authHeader =
        .unauthorizedOut) ∧
    (∀ claims requiredRole,
      shouldSkipPath path = false →
      extractTokenFromHeader authHeader ≠ "" →
      validate (extractTokenFromHeader authHeader) = .ok claims →
      claims.role ≠ requiredRole →
      middlewareChain validate (some requiredRole) path authHeader = .forbiddenOut) ∧
    (∀ claims requiredRole,
      shouldSkipPath path = false →
      extractTokenFromHeader authHeader ≠ "" →
      validate (extractTokenFromHeader authHeader) = .ok claims →
      claims.role = requiredRole →
      middlewareChain validate (some requiredRole) path authHeader =
        .reachedBusiness (some claims)) := by
  refine ⟨?_, ?_, ?_, ?_⟩
  · intro h
    simp [middlewareChain, authenticate, h]
  · intro h hbad requiredRole
    have hext : extractTokenFromHeader authHeader = "" := by
      rcases hbad with hb | hb
      · simp [extractTokenFromHeader, hb]
      · by_cases ha : authHeader = ""
        · simp [extractTokenFromHeader, ha]
        · simp [extractTokenFromHeader, ha, hb]
    cases requiredRole <;> simp [middlewareChain, authenticate, h, hext]
  · intro claims requiredRole h hne hval hrole
    simp [middlewareChain, authenticate, h, hne, hval, requireRole, hrole]
  · intro claims requiredRole h hne hval hrole
    simp [middlewareChain, authenticate, h, hne, hval, requireRole, hrole]

/-- C8 witness: with a validator accepting exactly the token `tok` as a
user-role identity — the health path passes with no check, a missing
header on a protected path is unauthorized, the user-role token on an
admin-only route is forbidden, and on a user-role route it proceeds. -/
theorem C8_witness :
    middlewareChain (fun t => if t = "tok" then .ok ⟨"1", "e@x", "user", 10, 0⟩
        else .error ErrInvalidToken) none "/health" "" = .reachedBusiness none ∧
    middlewareChain (fun t => if t = "tok" then .ok ⟨"1", "e@x", "user", 10, 0⟩
        else .error ErrInvalidToken) (some "admin") "/users" "" = .unauthorizedOut ∧
    middlewareChain (fun t => if t = "tok" then .ok ⟨"1", "e@x", "user", 10, 0⟩
        else .error ErrInvalidToken) (some "admin") "/users" "Bearer tok" =
      .forbiddenOut ∧
    middlewareChain (fun t => if t = "tok" then .ok ⟨"1", "e@x", "user", 10, 0⟩
        else .error ErrInvalidToken) (some "user") "/users" "Bearer tok" =
      .reachedBusiness (some ⟨"1", "e@x", "user", 10, 0⟩) :=
  ⟨(C8_auth_middleware_outcomes _ "/health" "").1 (by decide),
   (C8_auth_middleware_outcomes _ "/users" "").2.1 (by decide) (Or.inl rfl) (some "admin"),
   (C8_auth_middleware_outcomes (fun t => if t = "tok" then
        .ok ⟨"1", "e@x", "user", 10, 0⟩ else .error ErrInvalidToken) "/users"
        "Bearer tok").2.2.1
      ⟨"1", "e@x", "user", 10, 0⟩ "admin" (by decide) (by decide) rfl (by decide),
   (C8_auth_middleware_outcomes (fun t => if t = "tok" then
        .ok ⟨"1", "e@x", "user", 10, 0⟩ else .error ErrInvalidToken) "/users"
        "Bearer tok").2.2.2
      ⟨"1", "e@x", "user", 10, 0⟩ "user" (by decide) (by decide) rfl rfl⟩

end DemoGo
